import Mathlib

/-!
Verification of the nftstorage-tools checkpointed scan engine and
DAG export-and-verify subsystem, as a shallow embedding in Lean 4.

Each definition is translated from the repository source:
* the page scan loop (`while (state.currentID < range.max) { ...;
  state.currentID += PAGE_SIZE; saveState(state) }`) of
  count-dag-size / denylist-cars / count-dag-size-monthly;
* the SQL page fetch `SELECT ... WHERE id >= $1 ORDER BY id ASC LIMIT $2`;
* the checkpoint codec of lib/currentid-state.mjs and lib/state.mjs;
* `verifyDAG`, `exportDAG` and `getContentExtractor` of export-cars;
* `isDenyListed` of lib/denylist.mjs, together with a full executable
  SHA-256 over byte lists (machine words are `Nat` reduced `% 2^32`).
-/

namespace Scan

/-- The checkpointed scan loop of count-dag-size (and denylist-cars):
`while (cursor < rangeEnd) { fetch page; ...; cursor += P; save }`.
Returns (number of page fetches, final cursor).  The `0 < P` conjunct in
the guard only forces termination of the embedding; for the page sizes
used by the scripts (`PAGE_SIZE = 10000 > 0`) it is vacuously true and
the guard coincides with the source's `cursor < rangeEnd`. -/
def scanLoop (P R c : Nat) : Nat × Nat :=
  if h : c < R ∧ 0 < P then
    let r := scanLoop P R (c + P)
    (r.1 + 1, r.2)
  else (0, c)
termination_by R - c
decreasing_by simp_wf; omega

theorem scanLoop_eq_aux (P : Nat) (hP : 0 < P) :
    ∀ n R c, R - c ≤ n → c < R →
      scanLoop P R c = ((R - c + P - 1) / P, c + P * ((R - c + P - 1) / P)) := by
  intro n
  induction n with
  | zero => intro R c hn hc; omega
  | succ n ih =>
    intro R c hn hc
    rw [scanLoop, dif_pos ⟨hc, hP⟩]
    by_cases h2 : c + P < R
    · rw [ih R (c + P) (by omega) h2]
      have key : R - (c + P) + P - 1 + P = R - c + P - 1 := by omega
      have hdiv : (R - (c + P) + P - 1 + P) / P = (R - (c + P) + P - 1) / P + 1 :=
        Nat.add_div_right _ hP
      rw [key] at hdiv
      simp only [Prod.mk.injEq]
      refine ⟨by omega, ?_⟩
      rw [hdiv, Nat.mul_add, Nat.mul_one]
      omega
    · rw [scanLoop, dif_neg (by omega : ¬(c + P < R ∧ 0 < P))]
      have hdiv : (R - c + P - 1) / P = 1 := by
        apply Nat.div_eq_of_lt_le <;> omega
      rw [hdiv]
      simp

/-- C1: for page size `P > 0`, start cursor `c0` and fixed range end `R`
with `c0 < R`, the scan loop performs exactly `⌈(R - c0) / P⌉ =
(R - c0 + P - 1) / P` page fetches, the final cursor is
`c0 + P * ⌈(R - c0) / P⌉`, and that final cursor is the first value of
the form `c0 + P * k` that is `≥ R` (so for `c0 = 0` it is the smallest
multiple of `P` that is `≥ R`). -/
theorem scanner_fetch_count_and_final_cursor (P R c0 : Nat) (hP : 0 < P) (hc : c0 < R) :
    scanLoop P R c0 = ((R - c0 + P - 1) / P, c0 + P * ((R - c0 + P - 1) / P))
    ∧ R ≤ c0 + P * ((R - c0 + P - 1) / P)
    ∧ c0 + P * ((R - c0 + P - 1) / P) < R + P := by
  refine ⟨scanLoop_eq_aux P hP (R - c0) R c0 le_rfl hc, ?_⟩
  have h := Nat.div_add_mod (R - c0 + P - 1) P
  have h2 : (R - c0 + P - 1) % P < P := Nat.mod_lt _ hP
  generalize (R - c0 + P - 1) % P = r at h h2
  generalize P * ((R - c0 + P - 1) / P) = pq at h ⊢
  omega

theorem scanner_fetch_count_and_final_cursor_witness :
    scanLoop 3 7 1 = (2, 7) := by
  have h := (scanner_fetch_count_and_final_cursor 3 7 1 (by decide) (by decide)).1
  norm_num at h
  exact h

/-- The page fetch of count-dag-size / denylist-cars:
`SELECT id, ... FROM upload WHERE id >= $1 ORDER BY id ASC LIMIT $2`.
The table is modelled as its ascending list of ids; the fetch keeps the
ids `≥ cursor` and row-count-truncates to `limit` (an SQL LIMIT, not an
id-range bound). -/
def fetchUploadsAfter (db : List Nat) (cursor limit : Nat) : List Nat :=
  (db.filter (fun id => cursor ≤ id)).take limit

/-- The scan loop again, now recording every id handed to the batch
handler, page after page (count-dag-size main loop: fetch page with
`fetchUploadsAfter`, hand it to the aggregation, `cursor += P`). -/
def scanRun (db : List Nat) (P R c : Nat) : List Nat :=
  if _hg : c < R ∧ 0 < P then
    fetchUploadsAfter db c P ++ scanRun db P R (c + P)
  else []
termination_by R - c
decreasing_by simp_wf; omega

/-- C10: with table ids `[1, 5, 6]` and page size `2`, the record with
id `5` (which is `≥ cursor + pageSize` in the very first page) is handed
to the batch handler in three distinct iterations even though it occurs
once in the table, and the aggregate row count over the run is `6` for a
table of `3` rows — the row-count LIMIT page combined with the
`cursor += pageSize` advance double-counts records. -/
theorem scanner_double_counts_sparse_ids :
    ([1, 5, 6] : List Nat).count 5 = 1
    ∧ 5 ∈ fetchUploadsAfter [1, 5, 6] 0 2
    ∧ 0 + 2 ≤ 5
    ∧ (scanRun [1, 5, 6] 2 6 0).count 5 = 3
    ∧ (scanRun [1, 5, 6] 2 6 0).length = 6
    ∧ ([1, 5, 6] : List Nat).length = 3 := by
  refine ⟨by decide, by decide, by decide, ?_, ?_, by decide⟩ <;>
    · simp [scanRun, fetchUploadsAfter]

end Scan

namespace Checkpoint

/-- The checkpoint record of lib/currentid-state.mjs: a single
arbitrary-precision cursor (`currentID : bigint`). -/
structure State where
  currentID : Nat
deriving DecidableEq, Repr

/-- lib/currentid-state.mjs `encode`: the state is serialized with the
cursor rendered as its decimal string (`String(state.currentID)`),
which has no precision ceiling.  The serialized number is modelled by
its list of base-10 digits. -/
def encode (s : State) : List Nat := Nat.digits 10 s.currentID

/-- lib/currentid-state.mjs `decode`: `BigInt(raw.currentID)` parses the
decimal digits back into an arbitrary-precision integer. -/
def decode (d : List Nat) : State := ⟨Nat.ofDigits 10 d⟩

/-- lib/currentid-state.mjs `init`: the documented default state. -/
def init : State := ⟨0⟩

/-- lib/state.mjs `load`: reading the checkpoint file either yields its
content or fails with ENOENT, in which case `load` returns no state
(`undefined`); the caller falls back to `init()`
(`await State.load(...) ?? CurrentIDState.init()`). -/
def load : Option (List Nat) → Option State
  | some d => some (decode d)
  | none => none

/-- C3: encoding any checkpoint state and decoding the result
reproduces the identical cursor (in particular for cursors past `2^53`,
the native float safe range), and when the checkpoint file is absent
`load` reports absence and the state actually used is the documented
default with cursor zero. -/
theorem checkpoint_roundtrip_and_default :
    (∀ s : State, decode (encode s) = s)
    ∧ decode (encode ⟨2 ^ 53 + 1⟩) = ⟨2 ^ 53 + 1⟩
    ∧ load none = none
    ∧ ((load none).getD init).currentID = 0 := by
  have hrt : ∀ s : State, decode (encode s) = s := by
    rintro ⟨n⟩
    simp [decode, encode, Nat.ofDigits_digits]
  exact ⟨hrt, hrt _, rfl, rfl⟩

end Checkpoint

namespace Verify

/-- The structural classification produced by the hashing link
indexer's `report()`; `complete`, `missing` and `unknownStruct` model
the source strings 'Complete', 'Partial' and 'Unknown'. -/
inductive Structure
  | complete
  | missing
  | unknownStruct
deriving DecidableEq, Repr

inductive VerifyError
  | rootMismatch
  | nonComplete (s : Structure)
deriving DecidableEq, Repr

/-- export-cars `verifyDAG` after the block-indexing pass: the archive
header's declared roots and the indexer's structural report are checked
in source order — `header.roots[0]?.toString() !== root.toString()`
throws the root-mismatch error first (inside the indexing try-block);
only afterwards is `report.structure` examined and anything other than
'Complete' thrown as a verification error. -/
def verifyDAG (expected : String) (declaredRoots : List String) (s : Structure) :
    Except VerifyError Unit :=
  if declaredRoots.head? ≠ some expected then .error .rootMismatch
  else if s ≠ .complete then .error (.nonComplete s)
  else .ok ()

/-- C2: verification accepts exactly when the declared root equals the
expected root and the structural report is Complete; on a declared-root
mismatch the error raised is the root-mismatch error whatever the
structural classification (the root check precedes the structural
check); a non-Complete report is never accepted. -/
theorem verify_accepts_only_complete_matching_root
    (expected : String) (roots : List String) (s : Structure) :
    (verifyDAG expected roots s = .ok () ↔ roots.head? = some expected ∧ s = .complete)
    ∧ (roots.head? ≠ some expected → verifyDAG expected roots s = .error .rootMismatch)
    ∧ (s ≠ .complete → verifyDAG expected roots s ≠ .ok ())
    ∧ (roots = [] → verifyDAG expected roots s = .error .rootMismatch) := by
  by_cases h1 : roots.head? = some expected <;>
    by_cases h2 : s = Structure.complete <;>
      simp [verifyDAG, h1, h2] <;>
        rintro rfl <;> simp at h1

theorem verify_accepts_only_complete_matching_root_witness :
    verifyDAG "bafyA" ["bafyB"] Structure.complete = .error .rootMismatch :=
  (verify_accepts_only_complete_matching_root "bafyA" ["bafyB"] Structure.complete).2.1
    (by decide)

end Verify

namespace Export

/-- export-cars `exportDAG`: `new TimeoutController(5000)` — the fixed
inactivity window, armed when the session starts. -/
def exportTimeoutWindow : Nat := 5000

inductive ExportOutcome
  /-- Every block arrived within the window; the stream closed after
  delivering all of them. -/
  | delivered (blocks : Nat)
  /-- The watchdog fired after `blocksBeforeStall` blocks: the abort
  signal makes the pending `iterator.next()` reject, the pull throws
  and the stream errors with the timeout. -/
  | timedOut (blocksBeforeStall : Nat)
deriving DecidableEq, Repr

/-- The export session as a discrete-time run.  `gaps` lists, for each
block of the DAG in arrival order, the delay between the arming (or
most recent reset) of the watchdog and that block's arrival: the
controller is created at session start and `timeout.reset()` runs after
every delivered block, so each entry is measured from the previous
block.  A gap strictly greater than the window means the timer fires
before the block arrives and the export is cancelled with the timeout
error; otherwise the block is delivered and the timer reset. -/
def exportRun (window : Nat) : List Nat → ExportOutcome
  | [] => .delivered 0
  | g :: gs =>
    if window < g then .timedOut 0
    else
      match exportRun window gs with
      | .delivered n => .delivered (n + 1)
      | .timedOut n => .timedOut (n + 1)

/-- C6: if every inter-block delay is within the window, the export
delivers every block; as soon as one delay exceeds the window, the
watchdog cancels the export with the timeout outcome exactly at the
first offending block — all earlier blocks (the within-window prefix)
were delivered and nothing after the stall is waited for — so no export
stays suspended past the window, whatever the DAG size.  The default
window is the source's 5000 time-units (ms). -/
theorem export_watchdog_bounds_stall (window : Nat) (gaps : List Nat) :
    ((∀ g ∈ gaps, g ≤ window) → exportRun window gaps = .delivered gaps.length)
    ∧ ((∃ g ∈ gaps, window < g) →
        exportRun window gaps =
          .timedOut (gaps.takeWhile (fun g => decide (g ≤ window))).length)
    ∧ exportTimeoutWindow = 5000 := by
  refine ⟨?_, ?_, rfl⟩
  · intro h
    induction gaps with
    | nil => rfl
    | cons g gs ih =>
      have hg : ¬ window < g := by
        have := h g (by simp)
        omega
      have hgs := ih (fun x hx => h x (by simp [hx]))
      simp [exportRun, hg, hgs]
  · intro h
    induction gaps with
    | nil => simp at h
    | cons g gs ih =>
      by_cases hg : window < g
      · have hgle : ¬ g ≤ window := by omega
        simp [exportRun, hg, List.takeWhile_cons, hgle]
      · have hge : g ≤ window := by omega
        have hex : ∃ x ∈ gs, window < x := by
          obtain ⟨x, hx, hwx⟩ := h
          rcases List.mem_cons.mp hx with rfl | hx2
          · omega
          · exact ⟨x, hx2, hwx⟩
        have := ih hex
        simp [exportRun, hg, this, List.takeWhile_cons, hge]

theorem export_watchdog_bounds_stall_witness :
    exportRun 5000 [10, 20, 6000, 30] = .timedOut 2 := by
  have h := (export_watchdog_bounds_stall 5000 [10, 20, 6000, 30]).2.1
    ⟨6000, by decide, by decide⟩
  simpa using h

/-- The three exit paths of the `exportDAG` readable stream and the
cleanup each path runs.  `finished` is the iterator-done branch of
`pull` (`timeout.clear(); clearInterval(interval)` before closing),
`pullError` is the catch in `pull` (the same two calls before
rethrowing), `cancelled` is the stream's `cancel()` callback (the same
two calls).  These are the only cleanup statements in the function: no
branch stops the libp2p node or releases the dagula peer session that
`start` created. -/
inductive ExitPath
  | finished
  | pullError
  | cancelled
deriving DecidableEq, Repr

inductive Cleanup
  | clearStallTimer
  | clearProgressInterval
  | releasePeerSession
deriving DecidableEq, Repr

def exportExitCleanups : ExitPath → List Cleanup
  | .finished => [.clearStallTimer, .clearProgressInterval]
  | .pullError => [.clearStallTimer, .clearProgressInterval]
  | .cancelled => [.clearStallTimer, .clearProgressInterval]

/-- C9 counterexample: on the caller-initiated cancellation exit path
the export session's cleanup does not release the underlying peer
connection/session, refuting the claim that every exit path releases
the resources the session acquired. -/
theorem export_cancel_does_not_release_session :
    Cleanup.releasePeerSession ∉ exportExitCleanups ExitPath.cancelled := by
  decide

/-- C9 amended: every exit path of an export session — successful
completion, mid-transfer error, caller-initiated cancellation — clears
the stall timer and the progress reporter, but the underlying peer
connection/session is released on none of them (the libp2p node and
dagula session created at session start are never stopped). -/
theorem export_exit_clears_timers_only (p : ExitPath) :
    Cleanup.clearStallTimer ∈ exportExitCleanups p
    ∧ Cleanup.clearProgressInterval ∈ exportExitCleanups p
    ∧ Cleanup.releasePeerSession ∉ exportExitCleanups p := by
  cases p <;> decide

end Export

namespace Failover

/-- export-cars `getContentExtractor` peer loop: for each candidate of
the shuffled list in turn, attempt the export-then-verify pipeline; the
first success enqueues the item downstream and `break`s out, a failure
is caught and logged and the loop moves to the next candidate; when the
candidates are exhausted nothing is enqueued and the transform returns
normally (the surrounding stream keeps flowing).  `attempt p` is the
success of the whole export+verify against peer `p`; the result is the
emitting peer, if any, together with the trace of peers attempted, in
order. -/
def tryPeers (attempt : String → Bool) : List String → Option String × List String
  | [] => (none, [])
  | p :: ps =>
    if attempt p then (some p, [p])
    else
      let r := tryPeers attempt ps
      (r.1, p :: r.2)

theorem tryPeers_fst (attempt : String → Bool) :
    ∀ peers : List String, (tryPeers attempt peers).1 = peers.find? attempt := by
  intro peers
  induction peers with
  | nil => rfl
  | cons p ps ih =>
    by_cases hp : attempt p <;> simp [tryPeers, List.find?, hp, ih]

theorem tryPeers_snd (attempt : String → Bool) :
    ∀ peers : List String,
      (tryPeers attempt peers).2 =
        peers.takeWhile (fun p => !attempt p) ++ (peers.find? attempt).toList := by
  intro peers
  induction peers with
  | nil => rfl
  | cons p ps ih =>
    by_cases hp : attempt p <;> simp [tryPeers, List.find?, List.takeWhile_cons, hp, ih]

theorem tryPeers_sublist (attempt : String → Bool) :
    ∀ peers : List String, List.Sublist (tryPeers attempt peers).2 peers := by
  intro peers
  induction peers with
  | nil => simp [tryPeers]
  | cons p ps ih =>
    by_cases hp : attempt p
    · simp [tryPeers, hp]
    · simp [tryPeers, hp]
      exact ih

/-- C5: the shuffled candidates are attempted strictly in list order —
the attempt trace is the failing front of the list followed by the
first succeeding candidate, if any; the emitted peer is exactly the
first candidate whose attempt succeeds (`find?`); when the candidate
list has no duplicates no peer is attempted twice; and when every
candidate fails the item is simply not emitted while the function still
returns (the scan is not halted). -/
theorem peer_failover_in_turn (attempt : String → Bool) (peers : List String) :
    (tryPeers attempt peers).1 = peers.find? attempt
    ∧ (tryPeers attempt peers).2 =
        peers.takeWhile (fun p => !attempt p) ++ (peers.find? attempt).toList
    ∧ List.Sublist (tryPeers attempt peers).2 peers
    ∧ (peers.Nodup → ∀ p, ((tryPeers attempt peers).2).count p ≤ 1)
    ∧ ((∀ p ∈ peers, attempt p = false) → (tryPeers attempt peers).1 = none) := by
  refine ⟨tryPeers_fst attempt peers, tryPeers_snd attempt peers,
    tryPeers_sublist attempt peers, ?_, ?_⟩
  · intro hnd p
    exact List.nodup_iff_count_le_one.mp (hnd.sublist (tryPeers_sublist attempt peers)) p
  · intro hall
    rw [tryPeers_fst attempt peers, List.find?_eq_none]
    intro p hp
    simp [hall p hp]

theorem peer_failover_in_turn_witness :
    (tryPeers (fun p => p == "B") ["A", "B", "C"]).2.count "A" ≤ 1 :=
  (peer_failover_in_turn (fun p => p == "B") ["A", "B", "C"]).2.2.2.1 (by decide) "A"

end Failover

namespace Halt

/-- The scanner loop of count-dag-size-monthly `main` around the batch
handler: each iteration runs the handler (fetch the page, aggregate,
advance the cursor) and only then persists the produced state with
`saveState` before the next page; when the handler throws, `saveState`
is never reached for that page, the on-disk checkpoint keeps its
previous value and the error propagates to the catch around the while
loop, stopping the run.  `runPages` threads the persisted state through
the per-page handlers and returns the final on-disk state together with
the error that halted the run, if any. -/
def runPages {σ ε π : Type} (step : σ → π → Except ε σ) : σ → List π → σ × Option ε
  | disk, [] => (disk, none)
  | disk, p :: ps =>
    match step disk p with
    | .ok s => runPages step s ps
    | .error e => (disk, some e)

/-- C7: if the pages before `p` all succeed, carrying the persisted
checkpoint from `disk` to `d`, and the batch handler fails on `p`, then
the whole run — whatever pages would have followed — halts with that
error and the persisted checkpoint is exactly `d`, the one committed
after the last successful page, so a restarted run resumes from `d` and
re-fetches precisely the failed page. -/
theorem handler_error_preserves_checkpoint {σ ε π : Type}
    (step : σ → π → Except ε σ) (disk d : σ) (good : List π) (p : π) (rest : List π)
    (e : ε) (hgood : runPages step disk good = (d, none))
    (hfail : step d p = .error e) :
    runPages step disk (good ++ p :: rest) = (d, some e) := by
  induction good generalizing disk with
  | nil =>
    simp only [runPages, Prod.mk.injEq] at hgood
    obtain ⟨rfl, -⟩ := hgood
    simp [runPages, hfail]
  | cons q qs ih =>
    cases hstep : step disk q with
    | ok s =>
      have hg : runPages step s qs = (d, none) := by
        simpa [runPages, hstep] using hgood
      simpa [runPages, hstep] using ih s hg
    | error e2 =>
      exfalso
      simp [runPages, hstep] at hgood

theorem handler_error_preserves_checkpoint_witness :
    runPages (fun s p => if p = 99 then Except.error () else Except.ok (s + p))
        0 [1, 2, 99, 4] = (3, some ()) :=
  handler_error_preserves_checkpoint
    (fun s p => if p = 99 then Except.error () else Except.ok (s + p))
    0 3 [1, 2] 99 [4] () (by rfl) (by rfl)

end Halt

namespace Monthly

/-- A fetched upload row as the monthly batch handler consumes it:
`source_cid`, `content_cid` and the (year, month) that
`new Date(u.inserted_at)` yields. -/
structure Upload where
  source_cid : String
  content_cid : String
  year : Nat
  month : Nat
deriving DecidableEq, Repr

structure Total where
  bytes : Nat
  count : Nat
deriving DecidableEq, Repr

structure MonthTotal where
  real : Total
  adjusted : Total
deriving DecidableEq, Repr

/-- The `?? { real: { bytes: 0, count: 0 }, adjusted: { bytes: 0, count: 0 } }`
initializer for a month entry first touched. -/
def emptyMonthTotal : MonthTotal := ⟨⟨0, 0⟩, ⟨0, 0⟩⟩

/-- `state.totals`, the year/month-keyed aggregate object, as an
association list keyed by (year, month). -/
abbrev Totals := List ((Nat × Nat) × MonthTotal)

/-- The persisted state of count-dag-size-monthly:
`{ currentID, totals }`. -/
structure MState where
  currentID : Nat
  totals : Totals
deriving DecidableEq, Repr

def getTotal (ts : Totals) (k : Nat × Nat) : MonthTotal :=
  match ts.lookup k with
  | some v => v
  | none => emptyMonthTotal

def setTotal : Totals → (Nat × Nat) → MonthTotal → Totals
  | [], k, v => [(k, v)]
  | (k2, v2) :: ts, k, v =>
    if k2 = k then (k, v) :: ts else (k2, v2) :: setTotal ts k v

/-- The (year, month) group keys of a page in first-appearance order
(the order the `monthlyUploads` object is populated in). -/
def uniqueKeys (ks : List (Nat × Nat)) : List (Nat × Nat) :=
  ks.foldl (fun acc k => if k ∈ acc then acc else acc ++ [k]) []

/-- The per-page batch step of count-dag-size-monthly `main` (one
iteration of the while loop, minus persistence): group the fetched
uploads by the (year, month) of `inserted_at`, then for each group add
the group's DAG-size query result and row count to `real` and the same
over the non-denylisted subset to `adjusted` (the adjusted query is
skipped when the filtered list is empty), and finally advance the
cursor by the page size.  `sizeFn cids` stands for the read-only
database aggregate `SELECT SUM(size_actual) FROM cargo.dags WHERE
cid_v1 IN (cids)` and `denied cid` for `isDenyListed(denylist, cid)`:
both are pure functions of their arguments, so every delta is derived
from the fetched page alone. -/
def processPage (sizeFn : List String → Nat) (denied : String → Bool) (P : Nat)
    (s : MState) (page : List Upload) : MState :=
  let ks := uniqueKeys (page.map (fun u => (u.year, u.month)))
  let totals := ks.foldl
    (fun ts k =>
      let group := page.filter (fun u => (u.year, u.month) == k)
      let cur := getTotal ts k
      let realBytes := sizeFn (group.map (fun u => u.content_cid))
      let adjCids := (group.filter (fun u => !denied u.source_cid)).map
        (fun u => u.content_cid)
      let adj :=
        if adjCids.isEmpty then cur.adjusted
        else ⟨cur.adjusted.bytes + sizeFn adjCids, cur.adjusted.count + adjCids.length⟩
      setTotal ts k ⟨⟨cur.real.bytes + realBytes, cur.real.count + group.length⟩, adj⟩)
    s.totals
  { currentID := s.currentID + P, totals := totals }

/-- The scanner's memory together with the checkpoint file. -/
structure Machine where
  mem : MState
  disk : MState
deriving DecidableEq, Repr

/-- One full loop iteration: run the batch step on the in-memory state,
then persist it (`State.store`), after which memory and disk agree. -/
def stepAndPersist (sizeFn : List String → Nat) (denied : String → Bool) (P : Nat)
    (page : List Upload) (m : Machine) : Machine :=
  let s := processPage sizeFn denied P m.mem page
  ⟨s, s⟩

/-- A run that crashes after processing the page but before persisting
(memory holds the new aggregates, the checkpoint file still the old
ones), then restarts — `State.load` reads the checkpoint back into
memory — and re-runs the same page to completion. -/
def crashThenReplay (sizeFn : List String → Nat) (denied : String → Bool) (P : Nat)
    (page : List Upload) (m : Machine) : Machine :=
  let crashed : Machine := ⟨processPage sizeFn denied P m.mem page, m.disk⟩
  let restarted : Machine := ⟨crashed.disk, crashed.disk⟩
  stepAndPersist sizeFn denied P page restarted

/-- C4: from any machine whose memory was loaded from the persisted
checkpoint, running the batch step once ends in exactly the same
persisted state as crashing after processing the page but before
persisting and re-running the same page — the per-page deltas (sizes,
counts, monthly totals) are functions of the fetched page and the
loaded state only, never of the lost in-memory increments. -/
theorem page_replay_idempotent (sizeFn : List String → Nat) (denied : String → Bool)
    (P : Nat) (page : List Upload) (m : Machine) (hsync : m.mem = m.disk) :
    crashThenReplay sizeFn denied P page m = stepAndPersist sizeFn denied P page m := by
  obtain ⟨a, b⟩ := m
  simp only at hsync
  subst hsync
  rfl

theorem page_replay_idempotent_witness :
    crashThenReplay (fun cids => cids.length * 100) (fun _ => false) 10000
        [⟨"s1", "c1", 2023, 4⟩] ⟨⟨0, []⟩, ⟨0, []⟩⟩
      = stepAndPersist (fun cids => cids.length * 100) (fun _ => false) 10000
        [⟨"s1", "c1", 2023, 4⟩] ⟨⟨0, []⟩, ⟨0, []⟩⟩ :=
  page_replay_idempotent (fun cids => cids.length * 100) (fun _ => false) 10000
    [⟨"s1", "c1", 2023, 4⟩] ⟨⟨0, []⟩, ⟨0, []⟩⟩ rfl

end Monthly

namespace Crypto

/-! An executable SHA-256 over byte lists, the hash `isDenyListed` uses
(`sha256` from multiformats, i.e. standard FIPS 180-4 SHA-256).
Machine words are `Nat` values reduced `% 2^32` where overflow
matters. -/

def w32 : Nat := 4294967296

def rotr (n x : Nat) : Nat := ((x >>> n) ||| (x <<< (32 - n))) % w32

/-- Bitwise complement of a 32-bit word. -/
def notw (x : Nat) : Nat := x ^^^ (w32 - 1)

def bigS0 (x : Nat) : Nat := (rotr 2 x) ^^^ (rotr 13 x) ^^^ (rotr 22 x)
def bigS1 (x : Nat) : Nat := (rotr 6 x) ^^^ (rotr 11 x) ^^^ (rotr 25 x)
def smallS0 (x : Nat) : Nat := (rotr 7 x) ^^^ (rotr 18 x) ^^^ (x >>> 3)
def smallS1 (x : Nat) : Nat := (rotr 17 x) ^^^ (rotr 19 x) ^^^ (x >>> 10)

def ch (x y z : Nat) : Nat := (x &&& y) ^^^ (notw x &&& z)
def maj (x y z : Nat) : Nat := (x &&& y) ^^^ (x &&& z) ^^^ (y &&& z)

def K : List Nat :=
  [1116352408, 1899447441, 3049323471, 3921009573, 961987163,
   1508970993, 2453635748, 2870763221, 3624381080, 310598401,
   607225278, 1426881987, 1925078388, 2162078206, 2614888103,
   3248222580, 3835390401, 4022224774, 264347078, 604807628,
   770255983, 1249150122, 1555081692, 1996064986, 2554220882,
   2821834349, 2952996808, 3210313671, 3336571891, 3584528711,
   113926993, 338241895, 666307205, 773529912, 1294757372,
   1396182291, 1695183700, 1986661051, 2177026350, 2456956037,
   2730485921, 2820302411, 3259730800, 3345764771, 3516065817,
   3600352804, 4094571909, 275423344, 430227734, 506948616,
   659060556, 883997877, 958139571, 1322822218, 1537002063,
   1747873779, 1955562222, 2024104815, 2227730452, 2361852424,
   2428436474, 2756734187, 3204031479, 3329325298]

/-- FIPS 180-4 padding: append 0x80, zero bytes to 56 mod 64, then the
message bit length as 8 big-endian bytes. -/
def padBytes (msg : List Nat) : List Nat :=
  let L := msg.length
  let zeros := (119 - L % 64) % 64
  let bitLen := 8 * L
  msg ++ [128] ++ List.replicate zeros 0 ++
    [(bitLen >>> 56) % 256, (bitLen >>> 48) % 256, (bitLen >>> 40) % 256,
     (bitLen >>> 32) % 256, (bitLen >>> 24) % 256, (bitLen >>> 16) % 256,
     (bitLen >>> 8) % 256, bitLen % 256]

/-- Big-endian bytes to 32-bit words. -/
def toWords : List Nat → List Nat
  | b0 :: b1 :: b2 :: b3 :: rest =>
    (((b0 * 256 + b1) * 256 + b2) * 256 + b3) :: toWords rest
  | _ => []

/-- Words to 16-word blocks. -/
def toBlocks : List Nat → List (List Nat)
  | w0 :: w1 :: w2 :: w3 :: w4 :: w5 :: w6 :: w7 :: w8 :: w9 :: w10 :: w11 ::
      w12 :: w13 :: w14 :: w15 :: rest =>
    [w0, w1, w2, w3, w4, w5, w6, w7, w8, w9, w10, w11, w12, w13, w14, w15] ::
      toBlocks rest
  | _ => []

/-- One message-schedule extension step on the reversed schedule (head
is the most recent word): `w[i] = w[i-16] + s0(w[i-15]) + w[i-7] +
s1(w[i-2]) mod 2^32`. -/
def scheduleStep (rws : List Nat) : List Nat :=
  let wm2 := rws.getD 1 0
  let wm7 := rws.getD 6 0
  let wm15 := rws.getD 14 0
  let wm16 := rws.getD 15 0
  ((wm16 + smallS0 wm15 + wm7 + smallS1 wm2) % w32) :: rws

/-- The 64-word message schedule of a block. -/
def schedule (block : List Nat) : List Nat :=
  (Nat.repeat scheduleStep 48 block.reverse).reverse

structure Hash8 where
  a : Nat
  b : Nat
  c : Nat
  d : Nat
  e : Nat
  f : Nat
  g : Nat
  h : Nat
deriving DecidableEq, Repr

def initH : Hash8 :=
  ⟨1779033703, 3144134277, 1013904242, 2773480762,
   1359893119, 2600822924, 528734635, 1541459225⟩

def round (st : Hash8) (kw : Nat × Nat) : Hash8 :=
  let t1 := (st.h + bigS1 st.e + ch st.e st.f st.g + kw.1 + kw.2) % w32
  let t2 := (bigS0 st.a + maj st.a st.b st.c) % w32
  { a := (t1 + t2) % w32, b := st.a, c := st.b, d := st.c,
    e := (st.d + t1) % w32, f := st.e, g := st.f, h := st.g }

def compress (st : Hash8) (block : List Nat) : Hash8 :=
  let fin := (K.zip (schedule block)).foldl round st
  ⟨(st.a + fin.a) % w32, (st.b + fin.b) % w32, (st.c + fin.c) % w32,
   (st.d + fin.d) % w32, (st.e + fin.e) % w32, (st.f + fin.f) % w32,
   (st.g + fin.g) % w32, (st.h + fin.h) % w32⟩

def wordBytes (w : Nat) : List Nat :=
  [(w >>> 24) % 256, (w >>> 16) % 256, (w >>> 8) % 256, w % 256]

def sha256 (msg : List Nat) : List Nat :=
  let st := (toBlocks (toWords (padBytes msg))).foldl compress initH
  wordBytes st.a ++ wordBytes st.b ++ wordBytes st.c ++ wordBytes st.d ++
    wordBytes st.e ++ wordBytes st.f ++ wordBytes st.g ++ wordBytes st.h

/-- Lower-case hex, as `Buffer.prototype.toString('hex')` produces
(`Nat.digitChar` yields `0`–`9` then `a`–`f` for values below 16). -/
def hexByte (b : Nat) : List Char :=
  [Nat.digitChar (b / 16), Nat.digitChar (b % 16)]

def toHex (bs : List Nat) : String := String.mk (bs.flatMap hexByte)

/-- The implementation agrees with the FIPS 180-4 test vector for the
message "abc". -/
theorem sha256_fips_vector_abc :
    toHex (sha256 [97, 98, 99]) =
      "ba7816bf8f01cfea414140de5dae2223b00361a396177a9cb410ff61f20015ad" := by
  decide

end Crypto

namespace Denylist

/-- UTF-8 encoding of one code point, the byte expansion
`Buffer.from(string)` performs. -/
def utf8Bytes (c : Nat) : List Nat :=
  if c < 128 then [c]
  else if c < 2048 then [192 + c / 64, 128 + c % 64]
  else if c < 65536 then [224 + c / 4096, 128 + (c / 64) % 64, 128 + c % 64]
  else [240 + c / 262144, 128 + (c / 4096) % 64, 128 + (c / 64) % 64, 128 + c % 64]

def strBytes (s : String) : List Nat := s.toList.flatMap (fun c => utf8Bytes c.toNat)

/-- lib/denylist.mjs `isDenyListed` anchor: the lower-case hex SHA-256
of the identifier with the fixed '/' separator appended
(`sha256.encode(Buffer.from(cid + "/"))`, hex-encoded). -/
def anchorOf (cid : String) : String :=
  Crypto.toHex (Crypto.sha256 (strBytes (cid ++ "/")))

/-- lib/denylist.mjs `isDenyListed`: a pure membership test of the
anchor in the loaded set (modelled as the list of its members); no I/O
is involved. -/
def isDenyListed (denylist : List String) (cid : String) : Bool :=
  denylist.contains (anchorOf cid)

/-- C8: `isDenyListed` returns true exactly when the hex SHA-256 of the
identifier concatenated with the fixed separator '/' is a member of the
loaded set — it is a function of the set and the identifier alone,
hence deterministic; a set holding the anchor of "bafyroot" reports
"bafyroot" blocked, while "bafyroou", which differs in one character,
is reported not blocked. -/
theorem denylist_membership_anchor_hash :
    (∀ (set : List String) (cid : String),
      (isDenyListed set cid = true ↔
        Crypto.toHex (Crypto.sha256 (strBytes (cid ++ "/"))) ∈ set))
    ∧ isDenyListed [anchorOf "bafyroot"] "bafyroot" = true
    ∧ isDenyListed [anchorOf "bafyroot"] "bafyroou" = false := by
  refine ⟨fun set cid => ?_, by decide, by decide⟩
  simp [isDenyListed, anchorOf, List.contains, List.elem_iff]

end Denylist
